import Mathlib

/-!
Verification of the Vector3 kernel of the raytracer repository
(src/src/vector3.rs).

The Rust `f64` scalars are embedded as exact rationals (ℚ): every claim
settled here concerns the algebraic structure of the computations
(which operations are composed, comparisons, branch selection,
component-wise formulas), all of which are exact in this embedding.
The external square-root primitive (`f64::sqrt`) is passed as an explicit
function parameter where the source calls it, and the external uniform
random source is modelled by passing the drawn values explicitly (a single
drawn vector for `random_on_hemisphere`, a stream of candidate vectors for
the rejection-sampling loop `random_in_unit_sphere`).
-/

namespace Raytracer

/-- The `Vector3` struct of vector3.rs: three scalar fields x, y, z. -/
structure Vector3 where
  x : ℚ
  y : ℚ
  z : ℚ
  deriving DecidableEq

/-- `impl ops::Neg for Vector3` (vector3.rs lines 12-22): component-wise negation. -/
def Vector3.neg (v : Vector3) : Vector3 :=
  ⟨-v.x, -v.y, -v.z⟩

/-- `impl ops::AddAssign for Vector3` (lines 24-30), modelled as returning the
updated receiver: each component of `rhs` is added to the receiver in place. -/
def Vector3.add_assign (v rhs : Vector3) : Vector3 :=
  ⟨v.x + rhs.x, v.y + rhs.y, v.z + rhs.z⟩

/-- `impl ops::MulAssign<f64> for Vector3` (lines 32-38), modelled as returning
the updated receiver: each component is multiplied by the scalar in place. -/
def Vector3.mul_assign (v : Vector3) (rhs : ℚ) : Vector3 :=
  ⟨v.x * rhs, v.y * rhs, v.z * rhs⟩

/-- `impl ops::DivAssign<f64> for Vector3` (lines 40-44): the source body is
literally `*self *= 1.0 / rhs`, i.e. multiply-assign by the reciprocal. -/
def Vector3.div_assign (v : Vector3) (rhs : ℚ) : Vector3 :=
  v.mul_assign (1 / rhs)

/-- `impl ops::Add for Vector3` (lines 52-61): component-wise addition. -/
def Vector3.add (v rhs : Vector3) : Vector3 :=
  ⟨v.x + rhs.x, v.y + rhs.y, v.z + rhs.z⟩

/-- `impl ops::Sub for Vector3` (lines 63-72): component-wise subtraction. -/
def Vector3.sub (v rhs : Vector3) : Vector3 :=
  ⟨v.x - rhs.x, v.y - rhs.y, v.z - rhs.z⟩

/-- `impl ops::Mul<Vector3> for f64` (lines 96-105): scalar times vector,
each component of `rhs` multiplied on the left by the scalar. -/
def smul_left (s : ℚ) (rhs : Vector3) : Vector3 :=
  ⟨s * rhs.x, s * rhs.y, s * rhs.z⟩

/-- `impl ops::Div<f64> for Vector3` (lines 129-134): the source body is
literally `(1.0 / rhs) * self`, scalar multiplication by the reciprocal. -/
def Vector3.div (v : Vector3) (rhs : ℚ) : Vector3 :=
  smul_left (1 / rhs) v

/-- `Vector3::length_squared` (lines 187-189): sum of the squared components. -/
def Vector3.length_squared (v : Vector3) : ℚ :=
  v.x * v.x + v.y * v.y + v.z * v.z

/-- `Vector3::near_zero` (lines 197-200): true iff the absolute value of every
component is strictly below the threshold `s = 1e-8`. -/
def Vector3.near_zero (v : Vector3) : Bool :=
  decide (|v.x| < 1 / 100000000) && decide (|v.y| < 1 / 100000000) &&
    decide (|v.z| < 1 / 100000000)

/-- `dot_product` (lines 208-210): the standard inner product. -/
def dot_product (a b : Vector3) : ℚ :=
  a.x * b.x + a.y * b.y + a.z * b.z

/-- `reflect` (lines 252-254): `v - 2.0 * dot_product(v, n) * n`, where
`2.0 * dot_product(v, n)` is a scalar and the final `* n` is scalar-times-vector. -/
def reflect (v n : Vector3) : Vector3 :=
  v.sub (smul_left (2 * dot_product v n) n)

/-- `refract` (lines 257-264). The external `f64::sqrt` primitive is passed as
the function parameter `sq`; everything else follows the source body:
`cos_theta = dot_product(-uv, n).min(1.0)`,
`r_out_perp = etai_over_etat * (uv + cos_theta * n)`,
`r_out_parallel = -((1.0 - r_out_perp.length_squared()).abs()).sqrt() * n`,
returning `r_out_perp + r_out_parallel`. -/
def refract (sq : ℚ → ℚ) (uv n : Vector3) (etai_over_etat : ℚ) : Vector3 :=
  let cos_theta := min (dot_product uv.neg n) 1
  let r_out_perp := smul_left etai_over_etat (uv.add (smul_left cos_theta n))
  let r_out_parallel := smul_left (-(sq |1 - r_out_perp.length_squared|)) n
  r_out_perp.add r_out_parallel

/-- `random_on_hemisphere` (lines 242-249). The source draws
`on_unit_sphere = random_unit_vector()` from the external random source; here
that drawn vector is the explicit second argument. The body then returns it
unchanged when `dot_product(on_unit_sphere, normal) > 0.0` and its negation
otherwise. -/
def random_on_hemisphere (normal on_unit_sphere : Vector3) : Vector3 :=
  if dot_product on_unit_sphere normal > 0 then on_unit_sphere
  else on_unit_sphere.neg

/-- The rejection loop of `random_in_unit_sphere` (lines 222-230), unrolled over
the stream `s` of successive values of `Vector3::random_in_range(-1.0..1.0)`
starting at index `i`, with explicit fuel: each iteration returns the candidate
when its squared length is strictly below 1 and otherwise retries on the next
candidate. `none` means the fuel ran out before a candidate was accepted. -/
def random_in_unit_sphere_from (s : ℕ → Vector3) (i : ℕ) : ℕ → Option Vector3
  | 0 => none
  | fuel + 1 =>
      if (s i).length_squared < 1 then some (s i)
      else random_in_unit_sphere_from s (i + 1) fuel

/-- `random_in_unit_sphere` (lines 222-230): the rejection loop started on the
first candidate of the stream. -/
def random_in_unit_sphere (s : ℕ → Vector3) (fuel : ℕ) : Option Vector3 :=
  random_in_unit_sphere_from s 0 fuel

lemma random_in_unit_sphere_from_some {s : ℕ → Vector3} :
    ∀ {fuel i : ℕ} {p : Vector3}, random_in_unit_sphere_from s i fuel = some p →
      ∃ j, j < fuel ∧ p = s (i + j) ∧ p.length_squared < 1 ∧
        ∀ k, k < j → ¬ (s (i + k)).length_squared < 1 := by
  intro fuel
  induction fuel with
  | zero =>
      intro i p h
      simp [random_in_unit_sphere_from] at h
  | succ m ih =>
      intro i p h
      unfold random_in_unit_sphere_from at h
      by_cases hc : (s i).length_squared < 1
      · rw [if_pos hc] at h
        refine ⟨0, Nat.succ_pos m, ?_, ?_, ?_⟩
        · simpa using (Option.some.inj h).symm
        · rw [Option.some.inj h] at hc
          exact hc
        · intro k hk
          exact absurd hk (Nat.not_lt_zero k)
      · rw [if_neg hc] at h
        obtain ⟨j, hj, hpj, hlt, hmin⟩ := ih h
        refine ⟨j + 1, Nat.succ_lt_succ hj, ?_, hlt, ?_⟩
        · rw [hpj]
          congr 1
          omega
        · intro k hk
          cases k with
          | zero => simpa using hc
          | succ k =>
              have hk2 : k < j := Nat.lt_of_succ_lt_succ hk
              have := hmin k hk2
              have harg : i + (k + 1) = i + 1 + k := by omega
              rw [harg]
              exact this

lemma random_in_unit_sphere_from_isSome {s : ℕ → Vector3} :
    ∀ {j i : ℕ}, (s (i + j)).length_squared < 1 →
      (random_in_unit_sphere_from s i (j + 1)).isSome = true := by
  intro j
  induction j with
  | zero =>
      intro i h
      unfold random_in_unit_sphere_from
      rw [if_pos (by simpa using h)]
      rfl
  | succ m ih =>
      intro i h
      unfold random_in_unit_sphere_from
      by_cases hc : (s i).length_squared < 1
      · rw [if_pos hc]
        rfl
      · rw [if_neg hc]
        have harg : i + 1 + m = i + (m + 1) := by omega
        exact ih (by rw [harg]; exact h)

/-- Claim C7: for all vectors a and b, `dot_product(a, b) == dot_product(b, a)`
(commutativity of the inner product, an exact equality of computed values). -/
theorem dot_product_comm : ∀ a b : Vector3, dot_product a b = dot_product b a := by
  intro a b
  unfold dot_product
  ring

/-- Claim C10: for all vectors a and b, the in-place addition `a += b` leaves
the receiver exactly equal, component for component, to the pure addition
`a + b` applied to the original value of a. -/
theorem add_assign_eq_add : ∀ a b : Vector3, a.add_assign b = a.add b := by
  intro a b
  rfl

/-- Claim C8: `near_zero(v)` returns true if and only if the absolute value of
each of the three components x, y, z is strictly below the threshold 1e-8. -/
theorem near_zero_iff :
    ∀ v : Vector3,
      v.near_zero = true ↔
        (|v.x| < 1 / 100000000 ∧ |v.y| < 1 / 100000000 ∧ |v.z| < 1 / 100000000) := by
  intro v
  simp [Vector3.near_zero, and_assoc]

/-- Claim C4: for every incident vector v and normal n, `reflect(v, n)` equals
`v - 2*dot_product(v, n)*n` computed component-wise; in particular
`reflect((1,-1,0), (0,1,0)) = (1, 1, 0)`. -/
theorem reflect_spec :
    (∀ v n : Vector3,
        reflect v n =
          ⟨v.x - 2 * dot_product v n * n.x, v.y - 2 * dot_product v n * n.y,
            v.z - 2 * dot_product v n * n.z⟩) ∧
      reflect ⟨1, -1, 0⟩ ⟨0, 1, 0⟩ = ⟨1, 1, 0⟩ := by
  constructor
  · intro v n
    rfl
  · simp only [reflect, Vector3.sub, smul_left, dot_product, Vector3.mk.injEq]
    norm_num

/-- Claim C6: scalar division `v / s` is computed as `(1.0 / s) * v`
(reciprocal multiplication, which in exact arithmetic coincides with
component-by-component division), and the in-place variant `v /= s` is computed
as `v *= 1.0 / s`. -/
theorem div_is_reciprocal_mul :
    ∀ (v : Vector3) (s : ℚ),
      v.div s = smul_left (1 / s) v ∧
        v.div s = ⟨v.x / s, v.y / s, v.z / s⟩ ∧
        v.div_assign s = v.mul_assign (1 / s) := by
  intro v s
  refine ⟨rfl, ?_, rfl⟩
  simp only [Vector3.div, smul_left, Vector3.mk.injEq]
  refine ⟨by ring, by ring, by ring⟩

/-- Claim C2: for every normal and every drawn unit-sphere vector, the vector
returned by `random_on_hemisphere` has non-negative dot product with the
normal, on every call regardless of the value drawn from the random source. -/
theorem random_on_hemisphere_nonneg_dot :
    ∀ normal v : Vector3, 0 ≤ dot_product (random_on_hemisphere normal v) normal := by
  intro normal v
  unfold random_on_hemisphere
  by_cases h : dot_product v normal > 0
  · rw [if_pos h]
    exact le_of_lt h
  · rw [if_neg h]
    have hneg : dot_product v.neg normal = -(dot_product v normal) := by
      simp [dot_product, Vector3.neg]
      ring
    rw [hneg]
    push_neg at h
    linarith

/-- Counterexample to claim C3 as stated: with normal (0,1,0) and drawn vector
(1,0,0) the dot product is 0, which is non-negative, yet the code takes the
`else` branch (the guard is strictly `> 0.0`) and returns the negation rather
than the drawn vector unchanged. -/
theorem random_on_hemisphere_zero_dot_flips :
    0 ≤ dot_product ⟨1, 0, 0⟩ ⟨0, 1, 0⟩ ∧
      random_on_hemisphere ⟨0, 1, 0⟩ ⟨1, 0, 0⟩ ≠ ⟨1, 0, 0⟩ := by
  constructor
  · norm_num [dot_product]
  · simp only [random_on_hemisphere, dot_product, Vector3.neg]
    norm_num

/-- Claim C3 (amended): `random_on_hemisphere` returns the drawn vector
unchanged whenever its dot product with the normal is strictly positive, and
returns its negation exactly when that dot product is less than or equal to
zero (it flips if and only if the dot product is not strictly positive). -/
theorem random_on_hemisphere_flip_iff :
    ∀ normal v : Vector3,
      (0 < dot_product v normal → random_on_hemisphere normal v = v) ∧
        (dot_product v normal ≤ 0 → random_on_hemisphere normal v = v.neg) := by
  intro normal v
  constructor
  · intro h
    unfold random_on_hemisphere
    rw [if_pos h]
  · intro h
    unfold random_on_hemisphere
    rw [if_neg (not_lt.mpr h)]

/-- Witness for `random_on_hemisphere_flip_iff` at concrete inputs: a drawn
vector with positive dot product is returned unchanged, and one with
non-positive dot product is returned negated. -/
theorem random_on_hemisphere_flip_iff_witness :
    random_on_hemisphere ⟨0, 1, 0⟩ ⟨0, 1, 0⟩ = ⟨0, 1, 0⟩ ∧
      random_on_hemisphere ⟨0, 1, 0⟩ ⟨1, 0, 0⟩ = Vector3.neg ⟨1, 0, 0⟩ :=
  ⟨(random_on_hemisphere_flip_iff ⟨0, 1, 0⟩ ⟨0, 1, 0⟩).1 (by norm_num [dot_product]),
    (random_on_hemisphere_flip_iff ⟨0, 1, 0⟩ ⟨1, 0, 0⟩).2 (by norm_num [dot_product])⟩

/-- Claim C1: `refract(uv, n, etai_over_etat)` returns
`r_out_perp + r_out_parallel`, where `cos_theta = min(dot_product(-uv, n), 1)`,
`r_out_perp = etai_over_etat * (uv + cos_theta * n)` and
`r_out_parallel = -sqrt(|1 - |r_out_perp|^2|) * n`; the absolute value under
the square root makes the function total on every input rather than signaling
total internal reflection as an error. -/
theorem refract_formula :
    ∀ (sq : ℚ → ℚ) (uv n : Vector3) (e : ℚ),
      refract sq uv n e =
        Vector3.add
          (smul_left e (uv.add (smul_left (min (dot_product uv.neg n) 1) n)))
          (smul_left
            (-(sq |1 -
              (smul_left e
                (uv.add (smul_left (min (dot_product uv.neg n) 1) n))).length_squared|))
            n) := by
  intro sq uv n e
  rfl

/-- Claim C5: the rejection loop of `random_in_unit_sphere` returns the first
candidate from the random stream whose squared length is strictly below 1;
it terminates (some fuel suffices) exactly when the stream eventually produces
such a candidate, and every returned vector has squared length strictly
below 1. -/
theorem random_in_unit_sphere_spec :
    ∀ s : ℕ → Vector3,
      ((∃ fuel, (random_in_unit_sphere s fuel).isSome = true) ↔
          ∃ n, (s n).length_squared < 1) ∧
        ∀ fuel p, random_in_unit_sphere s fuel = some p →
          p.length_squared < 1 ∧
            ∃ n, p = s n ∧ ∀ m, m < n → ¬ (s m).length_squared < 1 := by
  intro s
  constructor
  · constructor
    · rintro ⟨fuel, hf⟩
      obtain ⟨p, hp⟩ := Option.isSome_iff_exists.mp hf
      obtain ⟨j, _, hpj, hlt, _⟩ := random_in_unit_sphere_from_some hp
      refine ⟨j, ?_⟩
      rw [← Nat.zero_add j, ← hpj]
      exact hlt
    · rintro ⟨n, hn⟩
      exact ⟨n + 1, random_in_unit_sphere_from_isSome (by simpa using hn)⟩
  · intro fuel p h
    obtain ⟨j, _, hpj, hlt, hmin⟩ := random_in_unit_sphere_from_some h
    refine ⟨hlt, j, by simpa using hpj, ?_⟩
    intro m hm
    have := hmin m hm
    simpa using this

/-- Witness for `random_in_unit_sphere_spec`: on the constant stream of zero
vectors, one unit of fuel returns the zero vector, whose squared length is
strictly below 1 and which is the first accepted candidate. -/
theorem random_in_unit_sphere_spec_witness :
    Vector3.length_squared ⟨0, 0, 0⟩ < 1 ∧
      ∃ n, (⟨0, 0, 0⟩ : Vector3) = (fun _ : ℕ => (⟨0, 0, 0⟩ : Vector3)) n ∧
        ∀ m, m < n →
          ¬ ((fun _ : ℕ => (⟨0, 0, 0⟩ : Vector3)) m).length_squared < 1 :=
  (random_in_unit_sphere_spec (fun _ => ⟨0, 0, 0⟩)).2 1 ⟨0, 0, 0⟩
    (by norm_num [random_in_unit_sphere, random_in_unit_sphere_from,
      Vector3.length_squared])

end Raytracer
